import Mathlib

/-!
Verification of the Fork & Flame menu-data pipeline.

This file shallowly embeds the core of the repository — the category
aggregator (`getAllFoods` in the API service layer), the image validator
(`validateImages` / `validateBestFoodsImages` in `useMenuData.ts`), the
localStorage validation cache, the catalog query facade
(`useAllFoodsWithValidation`), the image probe (`checkImageUrl` in
`useImageValidation.ts`) and the `searchFoods` helper — and proves or
refutes the specification's testable properties about them.

Modelling conventions:
* JS numbers used as timestamps are `Int` (so `now - timestamp` is exact);
  the progress percentage, a JS float, is modelled as `ℚ`.
* Asynchronous settlement of the seven concurrent category requests is a
  `FetchOutcome` per category: `rejected` (network error / non-2xx — axios
  rejects those), `nullData` (fulfilled but falsy `data`), `arrayData`
  (fulfilled with an array body) or `malformedData` (fulfilled with a
  truthy non-array body, on which `data.map` raises a TypeError that is
  only caught by the outer catch).
* The deterministic outcome of an image probe is a function
  `FoodItem → Bool` ("given identical probe outcomes").
-/

/-- One menu dish, as in `types/index.ts` (`FoodItem`).  The optional
`category` / `uniqueId` fields are `""` when absent. -/
structure FoodItem where
  id : String
  img : String
  name : String
  dsc : String
  price : Int
  rate : Int
  country : String
  category : String
  uniqueId : String
deriving DecidableEq, Repr

/-- The fixed category list of `getAllFoods`
(burgers, pizzas, desserts, drinks, bbqs, sandwiches, steaks). -/
def categories : List String :=
  ["burgers", "pizzas", "desserts", "drinks", "bbqs", "sandwiches", "steaks"]

/-- Settlement of one category request, as observed by the
`Promise.allSettled` join in `getAllFoods`. -/
inductive FetchOutcome where
  | rejected
  | nullData
  | arrayData (items : List FoodItem)
  | malformedData
deriving DecidableEq, Repr

/-- Stamping of one raw item:
`{...item, category: categories[index], uniqueId: item.id + "-" + categories[index]}`. -/
def stampItem (cat : String) (item : FoodItem) : FoodItem :=
  { item with category := cat, uniqueId := item.id ++ "-" ++ cat }

/-- One step of the dedup loop in `getAllFoods`:
`if (item.uniqueId && !seenIds.has(item.uniqueId)) { seenIds.add(...); allFoods.push(item) }`.
State is `(allFoods, seenIds)`. -/
def pushUnique (st : List FoodItem × List String) (item : FoodItem) :
    List FoodItem × List String :=
  if item.uniqueId ≠ "" ∧ item.uniqueId ∉ st.2 then
    (st.1 ++ [item], st.2 ++ [item.uniqueId])
  else st

/-- Processing of one settled category inside the `forEach` of `getAllFoods`.
A fulfilled truthy non-array body makes `result.value.data.map` throw, which
aborts the whole combine loop (modelled as `Except.error`); rejections and
falsy bodies are skipped. -/
def processCategory (st : List FoodItem × List String) (p : String × FetchOutcome) :
    Except Unit (List FoodItem × List String) :=
  match p.2 with
  | .rejected => .ok st
  | .nullData => .ok st
  | .malformedData => .error ()
  | .arrayData items => .ok ((items.map (stampItem p.1)).foldl pushUnique st)

/-- The aggregator `getAllFoods` from the API service layer, as a function of the seven
settled outcomes (paired positionally with `categories`).  The outer
`try/catch` turns an escaped exception into `[]`. -/
def getAllFoods (outcomes : List FetchOutcome) : List FoodItem :=
  match (categories.zip outcomes).foldlM processCategory ([], []) with
  | .ok st => st.1
  | .error _ => []

/-- The stamped items of the successful (array-bodied) categories, in
category order then per-response item order — the "union of the successes"
that the spec says aggregation returns. -/
def stampedSuccesses : List (String × FetchOutcome) → List FoodItem
  | [] => []
  | p :: ps =>
      (match p.2 with
       | .arrayData items => items.map (stampItem p.1)
       | _ => []) ++ stampedSuccesses ps

/-- The batch size `isMobile ? 10 : 50` of `validateImages`. -/
def batchSize (isMobile : Bool) : Nat := if isMobile then 10 else 50

/-- The validation window `validateLimit = Math.min(foods.length, isMobile ? 30 : 80)`. -/
def validateLimit (isMobile : Bool) (n : Nat) : Nat :=
  min n (if isMobile then 30 else 80)

/-- The batch loop of `validateImages`
(`for (let i = 0; i < toValidate.length; i += batchSize)`), returning
`(validFirst, invalidWithinValidated, progress updates)`.  Each batch is
probed concurrently; `Promise.all` preserves batch order, so valid and
invalid items accumulate in original order.  After each batch the progress
update `Math.min(((i + batchSize) / toValidate.length) * 100, 100)` is
emitted.  `fuel` is a structural bound on the number of iterations; any
`fuel ≥ work.length` is exact when `bs > 0`. -/
def validateLoop (probe : FoodItem → Bool) (bs len : Nat) :
    Nat → Nat → List FoodItem → List FoodItem × List FoodItem × List ℚ
  | _, _, [] => ([], [], [])
  | 0, _, _ => ([], [], [])
  | fuel + 1, i, work@(_ :: _) =>
      let batch := work.take bs
      let rest := validateLoop probe bs len fuel (i + bs) (work.drop bs)
      (batch.filter probe ++ rest.1,
       batch.filter (fun f => !probe f) ++ rest.2.1,
       min (((i + bs : ℚ)) / len * 100) 100 :: rest.2.2)

/-- The validator `validateImages` from `useAllFoodsWithValidation`, as a pure function of
the device class, the deterministic probe outcomes and the fetched catalog.
Returns the reordered list `[...validFirst, ...invalidWithinValidated,
...remaining]` together with the full sequence of `validationProgress`
values set during the pass (the initial `setValidationProgress(0)`, the
per-batch updates, and the final `setValidationProgress(100)`). -/
def validateImages (isMobile : Bool) (probe : FoodItem → Bool) (foods : List FoodItem) :
    List FoodItem × List ℚ :=
  let bs := batchSize isMobile
  let limit := validateLimit isMobile foods.length
  let toValidate := foods.take limit
  let remaining := foods.drop limit
  let r := validateLoop probe bs toValidate.length toValidate.length 0 toValidate
  (r.1 ++ r.2.1 ++ remaining, (0 : ℚ) :: r.2.2 ++ [100])

/-- The best-foods validator `validateBestFoodsImages` from `useBestFoods`: probes every item in
parallel, maps failures to `null` and keeps only the non-null (valid)
results — invalid items are dropped, not reordered. -/
def validateBestFoodsImages (probe : FoodItem → Bool) (foods : List FoodItem) :
    List FoodItem :=
  foods.filter probe

/-- The persisted validation record `{ foods, timestamp }`. -/
structure ValidationCacheRecord where
  foods : List FoodItem
  timestamp : Int
deriving DecidableEq, Repr

/-- The 24-hour TTL `24 * 60 * 60 * 1000`. -/
def validationTTL : Int := 24 * 60 * 60 * 1000

/-- The cache read in the `useState` initializer of
`useAllFoodsWithValidation`: given the stored record (or `none`) and the
current time, returns the initial `validatedFoods` value and the record
left in the store.  An expired record is removed (`localStorage.removeItem`);
a fresh record with a non-empty `foods` list is served; otherwise the
initializer falls through to `[]` leaving the store untouched. -/
def readValidationCache (stored : Option ValidationCacheRecord) (now : Int) :
    List FoodItem × Option ValidationCacheRecord :=
  match stored with
  | none => ([], none)
  | some r =>
      let isExpired := now - r.timestamp > validationTTL
      if ¬isExpired ∧ r.foods ≠ [] then (r.foods, some r)
      else if isExpired then ([], none)
      else ([], some r)

/-- The observable result of one complete `validateImages` pass: the state
set by the tail of the function and the record written to
`localStorage`. -/
structure PassResult where
  validatedFoods : List FoodItem
  isValidating : Bool
  finalProgress : ℚ
  cacheWritten : ValidationCacheRecord
deriving Repr

/-- One complete main-catalog validation pass, as executed by
`validateImages(foods)` in a render whose `validatedFoods` state variable
holds `validatedFoodsAtStart`.  The async function's closure keeps reading
that render's value, so the `cacheData` object written at the end is
`{ foods: validatedFoodsAtStart, timestamp: now }` — `setValidatedFoods(reordered)`
does not change the captured binding. -/
def runMainValidationPass (isMobile : Bool) (probe : FoodItem → Bool)
    (validatedFoodsAtStart : List FoodItem) (foods : List FoodItem) (now : Int) :
    PassResult :=
  let reordered := (validateImages isMobile probe foods).1
  { validatedFoods := reordered
    isValidating := false
    finalProgress := 100
    cacheWritten := { foods := validatedFoodsAtStart, timestamp := now } }

/-- The dedup key of the facade: `(f as any).uniqueId || f.id`. -/
def facadeKey (f : FoodItem) : String :=
  if f.uniqueId ≠ "" then f.uniqueId else f.id

/-- One step of the facade's dedup loop:
`if (!seen.has(key)) { seen.add(key); out.push(f) }`. -/
def facadeDedupeStep (st : List FoodItem × List String) (f : FoodItem) :
    List FoodItem × List String :=
  if facadeKey f ∈ st.2 then st else (st.1 ++ [f], st.2 ++ [facadeKey f])

/-- The dedup pass the facade applies to `finalData` before returning it. -/
def facadeDedupe (l : List FoodItem) : List FoodItem :=
  (l.foldl facadeDedupeStep ([], [])).1

/-- The slice of the facade's return value the claims are about. -/
structure FacadeView where
  data : List FoodItem
  validCount : Nat
  totalCount : Nat
deriving DecidableEq, Repr

/-- The return value of `useAllFoodsWithValidation` as a function of the
current `validatedFoods` state and the query result `result.data`
(`none` when the query is disabled or not yet resolved):
`finalData = validatedFoods.length > 0 ? validatedFoods : (result.data || [])`,
deduplicated by `uniqueId || id`; `validCount = validatedFoods.length`;
`totalCount = result.data?.length || 0`. -/
def facadeView (validatedFoods : List FoodItem) (resultData : Option (List FoodItem)) :
    FacadeView :=
  let finalData := if validatedFoods.length > 0 then validatedFoods else resultData.getD []
  { data := facadeDedupe finalData
    validCount := validatedFoods.length
    totalCount := (resultData.getD []).length }

/-- The asynchronous fate of one image element: its `onload` fires at time
`t`, its `onerror` fires at time `t`, or neither ever fires. -/
inductive ImageEvent where
  | loadAt (t : Nat)
  | errorAt (t : Nat)
  | never
deriving DecidableEq, Repr

/-- The probe `checkImageUrl` from `useImageValidation.ts`, as a function of the
image's fate: the promise resolves `false` immediately on an empty url;
otherwise it races the load/error handlers against the `setTimeout`
deadline `timeoutMs` and resolves with the first to fire (`true` only for
a load strictly before the deadline).  It is a total function: the promise
always resolves and never rejects. -/
def checkImageUrl (timeoutMs : Nat) (url : String) (ev : ImageEvent) : Bool :=
  if url = "" then false
  else
    match ev with
    | .loadAt t => decide (t < timeoutMs)
    | .errorAt _ => false
    | .never => false

/-- Whether `needle` occurs at the very start of `hay` (JS `String.prototype.startsWith`
over code points). -/
def listStartsWith : List Char → List Char → Bool
  | [], _ => true
  | _ :: _, [] => false
  | a :: as, b :: bs => a = b && listStartsWith as bs

/-- JS `hay.includes(needle)` (substring containment over code points). -/
def substringOf (needle : List Char) : List Char → Bool
  | [] => listStartsWith needle []
  | h :: rest => listStartsWith needle (h :: rest) || substringOf needle rest

/-- JS `s.toLowerCase()` as a code-point list. -/
def lowerChars (s : String) : List Char := s.toList.map Char.toLower

/-- JS `.trim()` over a code-point list: strip leading and trailing whitespace. -/
def trimChars (l : List Char) : List Char :=
  ((l.dropWhile Char.isWhitespace).reverse.dropWhile Char.isWhitespace).reverse

/-- Whether one food matches the search term:
`food.name.toLowerCase().includes(searchTerm) || food.dsc.toLowerCase().includes(searchTerm)`. -/
def matchesSearch (searchTerm : List Char) (food : FoodItem) : Bool :=
  substringOf searchTerm (lowerChars food.name) ||
  substringOf searchTerm (lowerChars food.dsc)

/-- The helper `searchFoods` from the API service layer.  `foods = none` models a
missing (`undefined`/`null`) list; `!query || !foods` returns `[]`. -/
def searchFoods (query : String) (foods : Option (List FoodItem)) : List FoodItem :=
  if query = "" ∨ foods = none then []
  else
    let searchTerm := trimChars (lowerChars query)
    (foods.getD []).filter (matchesSearch searchTerm)

/-! ### Aggregator lemmas -/

theorem pushUnique_inv (st : List FoodItem × List String) (f : FoodItem)
    (h1 : st.1.map FoodItem.uniqueId = st.2) (h2 : st.2.Nodup) :
    (pushUnique st f).1.map FoodItem.uniqueId = (pushUnique st f).2 ∧
      (pushUnique st f).2.Nodup := by
  unfold pushUnique
  split
  · next h =>
    refine ⟨by simp [List.map_append, h1], ?_⟩
    have hnin : f.uniqueId ∉ st.2 := h.2
    simp [List.nodup_append, h2, hnin]
  · exact ⟨h1, h2⟩

theorem foldl_pushUnique_inv (items : List FoodItem) :
    ∀ st : List FoodItem × List String,
      st.1.map FoodItem.uniqueId = st.2 → st.2.Nodup →
      (items.foldl pushUnique st).1.map FoodItem.uniqueId = (items.foldl pushUnique st).2 ∧
        (items.foldl pushUnique st).2.Nodup := by
  induction items with
  | nil => exact fun st h1 h2 => ⟨h1, h2⟩
  | cons f fs ih =>
      intro st h1 h2
      have h := pushUnique_inv st f h1 h2
      exact ih (pushUnique st f) h.1 h.2

theorem foldlM_processCategory_inv (pairs : List (String × FetchOutcome)) :
    ∀ st : List FoodItem × List String,
      st.1.map FoodItem.uniqueId = st.2 → st.2.Nodup →
      ∀ out, pairs.foldlM processCategory st = .ok out →
        out.1.map FoodItem.uniqueId = out.2 ∧ out.2.Nodup := by
  induction pairs with
  | nil =>
      intro st h1 h2 out hout
      simp only [List.foldlM_nil, pure] at hout
      cases hout
      exact ⟨h1, h2⟩
  | cons p ps ih =>
      intro st h1 h2 out hout
      rw [List.foldlM_cons] at hout
      cases hp : p.2 with
      | rejected =>
          have hpc : processCategory st p = .ok st := by simp [processCategory, hp]
          rw [hpc] at hout
          exact ih st h1 h2 out hout
      | nullData =>
          have hpc : processCategory st p = .ok st := by simp [processCategory, hp]
          rw [hpc] at hout
          exact ih st h1 h2 out hout
      | malformedData =>
          have hpc : processCategory st p = .error () := by simp [processCategory, hp]
          rw [hpc] at hout
          exact Except.noConfusion hout
      | arrayData items =>
          have hpc : processCategory st p =
              .ok ((items.map (stampItem p.1)).foldl pushUnique st) := by
            simp [processCategory, hp]
          rw [hpc] at hout
          have h := foldl_pushUnique_inv (items.map (stampItem p.1)) st h1 h2
          exact ih _ h.1 h.2 out hout

theorem getAllFoods_uniqueId_nodup (outcomes : List FetchOutcome) :
    ((getAllFoods outcomes).map FoodItem.uniqueId).Nodup := by
  unfold getAllFoods
  split
  · next st hst =>
      have h := foldlM_processCategory_inv (categories.zip outcomes) ([], [])
        (by simp) (by simp) st hst
      rw [h.1]
      exact h.2
  · simp

theorem foldl_pushUnique_fresh (items : List FoodItem) :
    ∀ st : List FoodItem × List String,
      (∀ f ∈ items, f.uniqueId ≠ "") →
      (∀ f ∈ items, f.uniqueId ∉ st.2) →
      (items.map FoodItem.uniqueId).Nodup →
      items.foldl pushUnique st = (st.1 ++ items, st.2 ++ items.map FoodItem.uniqueId) := by
  induction items with
  | nil => intro st _ _ _; simp
  | cons f fs ih =>
      intro st hne hnin hnd
      have hnd2 : (∀ x ∈ fs, ¬x.uniqueId = f.uniqueId) ∧
          (fs.map FoodItem.uniqueId).Nodup := by simpa using hnd
      have hcond : f.uniqueId ≠ "" ∧ f.uniqueId ∉ st.2 :=
        ⟨hne f (by simp), hnin f (by simp)⟩
      have hpu : pushUnique st f = (st.1 ++ [f], st.2 ++ [f.uniqueId]) := by
        unfold pushUnique; rw [if_pos hcond]
      have hfs1 : ∀ g ∈ fs, g.uniqueId ≠ "" := fun g hg => hne g (by simp [hg])
      have hfs2 : ∀ g ∈ fs, g.uniqueId ∉ st.2 ++ [f.uniqueId] := by
        intro g hg
        simp only [List.mem_append, List.mem_singleton]
        push_neg
        exact ⟨hnin g (by simp [hg]), hnd2.1 g hg⟩
      rw [List.foldl_cons, hpu, ih (st.1 ++ [f], st.2 ++ [f.uniqueId]) hfs1 hfs2 hnd2.2]
      simp

theorem foldlM_processCategory_eq (pairs : List (String × FetchOutcome)) :
    ∀ st : List FoodItem × List String,
      (∀ p ∈ pairs, p.2 ≠ FetchOutcome.malformedData) →
      (∀ f ∈ stampedSuccesses pairs, f.uniqueId ≠ "") →
      (st.2 ++ (stampedSuccesses pairs).map FoodItem.uniqueId).Nodup →
      pairs.foldlM processCategory st =
        .ok (st.1 ++ stampedSuccesses pairs,
             st.2 ++ (stampedSuccesses pairs).map FoodItem.uniqueId) := by
  induction pairs with
  | nil =>
      intro st _ _ _
      simp only [stampedSuccesses, List.foldlM_nil, List.append_nil, List.map_nil]
      rfl
  | cons p ps ih =>
      intro st hm hne hnd
      rw [List.foldlM_cons]
      cases hp : p.2 with
      | rejected =>
          have hstamp : stampedSuccesses (p :: ps) = stampedSuccesses ps := by
            simp [stampedSuccesses, hp]
          rw [hstamp] at hne hnd ⊢
          have hpc : processCategory st p = .ok st := by simp [processCategory, hp]
          rw [hpc]
          show List.foldlM processCategory st ps = _
          exact ih st (fun q hq => hm q (by simp [hq])) hne hnd
      | nullData =>
          have hstamp : stampedSuccesses (p :: ps) = stampedSuccesses ps := by
            simp [stampedSuccesses, hp]
          rw [hstamp] at hne hnd ⊢
          have hpc : processCategory st p = .ok st := by simp [processCategory, hp]
          rw [hpc]
          show List.foldlM processCategory st ps = _
          exact ih st (fun q hq => hm q (by simp [hq])) hne hnd
      | malformedData => exact absurd hp (hm p (by simp))
      | arrayData items =>
          have hstamp : stampedSuccesses (p :: ps) =
              items.map (stampItem p.1) ++ stampedSuccesses ps := by
            simp [stampedSuccesses, hp]
          rw [hstamp] at hne hnd ⊢
          have hnd' : (st.2 ++ ((items.map (stampItem p.1)).map FoodItem.uniqueId ++
              (stampedSuccesses ps).map FoodItem.uniqueId)).Nodup := by
            simpa [List.map_append] using hnd
          have hdisj := (List.nodup_append.mp hnd').2.2
          have hfresh : ∀ f ∈ items.map (stampItem p.1), f.uniqueId ∉ st.2 := by
            intro f hf hmem
            exact hdisj hmem (List.mem_append_left _ (List.mem_map_of_mem FoodItem.uniqueId hf))
          have hrest := (List.nodup_append.mp hnd').2.1
          have hndm : ((items.map (stampItem p.1)).map FoodItem.uniqueId).Nodup :=
            (List.nodup_append.mp hrest).1
          have hnem : ∀ f ∈ items.map (stampItem p.1), f.uniqueId ≠ "" :=
            fun f hf => hne f (List.mem_append_left _ hf)
          have hpc : processCategory st p =
              .ok ((items.map (stampItem p.1)).foldl pushUnique st) := by
            simp [processCategory, hp]
          rw [hpc, foldl_pushUnique_fresh (items.map (stampItem p.1)) st hnem hfresh hndm]
          show List.foldlM processCategory
              (st.1 ++ items.map (stampItem p.1),
               st.2 ++ (items.map (stampItem p.1)).map FoodItem.uniqueId) ps = _
          rw [ih (st.1 ++ items.map (stampItem p.1),
                st.2 ++ (items.map (stampItem p.1)).map FoodItem.uniqueId)
              (fun q hq => hm q (by simp [hq]))
              (fun f hf => hne f (List.mem_append_right _ hf))
              (by simpa [List.append_assoc] using hnd')]
          simp [List.append_assoc, List.map_append]

theorem getAllFoods_eq_stampedSuccesses (outcomes : List FetchOutcome)
    (hm : ∀ o ∈ outcomes, o ≠ FetchOutcome.malformedData)
    (hne : ∀ f ∈ stampedSuccesses (categories.zip outcomes), f.uniqueId ≠ "")
    (hnd : ((stampedSuccesses (categories.zip outcomes)).map FoodItem.uniqueId).Nodup) :
    getAllFoods outcomes = stampedSuccesses (categories.zip outcomes) := by
  unfold getAllFoods
  have hm' : ∀ p ∈ categories.zip outcomes, p.2 ≠ FetchOutcome.malformedData := by
    intro p hp
    exact hm p.2 (List.of_mem_zip hp).2
  rw [foldlM_processCategory_eq (categories.zip outcomes) ([], []) hm' hne (by simpa using hnd)]
  simp

theorem stampedSuccesses_all_rejected (pairs : List (String × FetchOutcome))
    (h : ∀ p ∈ pairs, p.2 = FetchOutcome.rejected) : stampedSuccesses pairs = [] := by
  induction pairs with
  | nil => rfl
  | cons p ps ih =>
      have hp := h p (by simp)
      simp [stampedSuccesses, hp, ih (fun q hq => h q (by simp [hq]))]

theorem getAllFoods_all_rejected (outcomes : List FetchOutcome)
    (h : ∀ o ∈ outcomes, o = FetchOutcome.rejected) : getAllFoods outcomes = [] := by
  have hz : ∀ p ∈ categories.zip outcomes, p.2 = FetchOutcome.rejected :=
    fun p hp => h p.2 (List.of_mem_zip hp).2
  have hs := stampedSuccesses_all_rejected (categories.zip outcomes) hz
  rw [getAllFoods_eq_stampedSuccesses outcomes
    (fun o ho => by rw [h o ho]; intro hc; cases hc)
    (by rw [hs]; intro f hf; cases hf)
    (by rw [hs]; simp), hs]

theorem stamp_uniqueId_ne_empty (s cat : String) : s ++ "-" ++ cat ≠ "" := by
  intro h
  have hlen := congrArg String.length h
  have h1 : ("-" : String).length = 1 := rfl
  have h2 : ("" : String).length = 0 := rfl
  simp only [String.length_append, h1, h2] at hlen
  omega

theorem stamp_uniqueId_ne (s : String) (c1 c2 : String) (h : c1.length ≠ c2.length) :
    s ++ "-" ++ c1 ≠ s ++ "-" ++ c2 := by
  intro he
  have hlen := congrArg String.length he
  simp only [String.length_append] at hlen
  omega

/-! ### Facade dedup lemmas -/

theorem foldl_facadeDedupeStep_inv (l : List FoodItem) :
    ∀ st : List FoodItem × List String,
      st.1.map facadeKey = st.2 → st.2.Nodup →
      (l.foldl facadeDedupeStep st).1.map facadeKey = (l.foldl facadeDedupeStep st).2 ∧
        (l.foldl facadeDedupeStep st).2.Nodup := by
  induction l with
  | nil => exact fun st h1 h2 => ⟨h1, h2⟩
  | cons f fs ih =>
      intro st h1 h2
      rw [List.foldl_cons]
      unfold facadeDedupeStep
      split
      · exact ih st h1 h2
      · next h =>
        refine ih _ (by simp [List.map_append, h1]) ?_
        simp [List.nodup_append, h2, h]

theorem facadeDedupe_key_nodup (l : List FoodItem) :
    ((facadeDedupe l).map facadeKey).Nodup := by
  unfold facadeDedupe
  have h := foldl_facadeDedupeStep_inv l ([], []) (by simp) (by simp)
  rw [h.1]
  exact h.2

theorem foldl_facadeDedupeStep_subset (l : List FoodItem) :
    ∀ st : List FoodItem × List String, ∀ f ∈ (l.foldl facadeDedupeStep st).1,
      f ∈ st.1 ∨ f ∈ l := by
  induction l with
  | nil => exact fun st f hf => Or.inl hf
  | cons g gs ih =>
      intro st f hf
      rw [List.foldl_cons] at hf
      rcases ih (facadeDedupeStep st g) f hf with h | h
      · unfold facadeDedupeStep at h
        split at h
        · exact Or.inl h
        · rcases List.mem_append.mp h with h' | h'
          · exact Or.inl h'
          · exact Or.inr (by simp at h'; simp [h'])
      · exact Or.inr (by simp [h])

theorem facadeDedupe_subset (l : List FoodItem) : ∀ f ∈ facadeDedupe l, f ∈ l := by
  intro f hf
  rcases foldl_facadeDedupeStep_subset l ([], []) f hf with h | h
  · cases h
  · exact h

/-! ### Claim C1 -/

/-- Claim C1: (i) for every list of settled category outcomes, no two items in
the `getAllFoods` aggregate share a `uniqueId`; (ii) when two category
responses reuse the same raw item (hence the same raw `id`), both copies
are retained, stamped `id ++ "-" ++ category`; (iii) the facade's dedup
pass also leaves no two items sharing a `uniqueId` (for items carrying a
stamped non-empty `uniqueId`, whose `uniqueId` is the dedup key). -/
theorem claim_C1_dedup_invariant :
    (∀ outcomes : List FetchOutcome,
      ((getAllFoods outcomes).map FoodItem.uniqueId).Nodup) ∧
    (∀ r : FoodItem,
      getAllFoods [.arrayData [r], .arrayData [r], .rejected, .rejected, .rejected,
        .rejected, .rejected] = [stampItem "burgers" r, stampItem "pizzas" r]) ∧
    (∀ l : List FoodItem, (∀ f ∈ l, f.uniqueId ≠ "") →
      ((facadeDedupe l).map FoodItem.uniqueId).Nodup) := by
  refine ⟨getAllFoods_uniqueId_nodup, ?_, ?_⟩
  · intro r
    have hs : stampedSuccesses (categories.zip
        [.arrayData [r], .arrayData [r], .rejected, .rejected, .rejected, .rejected,
          .rejected]) = [stampItem "burgers" r, stampItem "pizzas" r] := rfl
    have hm : ∀ o ∈ ([.arrayData [r], .arrayData [r], .rejected, .rejected, .rejected,
        .rejected, .rejected] : List FetchOutcome), o ≠ FetchOutcome.malformedData := by
      intro o ho
      simp at ho
      rcases ho with rfl | rfl | rfl <;> simp
    have hne : ∀ f ∈ stampedSuccesses (categories.zip
        [.arrayData [r], .arrayData [r], .rejected, .rejected, .rejected, .rejected,
          .rejected]), f.uniqueId ≠ "" := by
      rw [hs]
      intro f hf
      simp at hf
      rcases hf with rfl | rfl <;>
        simpa [stampItem] using stamp_uniqueId_ne_empty r.id _
    have hnd : ((stampedSuccesses (categories.zip
        [.arrayData [r], .arrayData [r], .rejected, .rejected, .rejected, .rejected,
          .rejected])).map FoodItem.uniqueId).Nodup := by
      rw [hs]
      simp [stampItem]
      exact stamp_uniqueId_ne r.id "burgers" "pizzas" (by decide)
    rw [getAllFoods_eq_stampedSuccesses _ hm hne hnd, hs]
  · intro l hl
    have hk : ∀ f ∈ facadeDedupe l, facadeKey f = f.uniqueId := by
      intro f hf
      have := hl f (facadeDedupe_subset l f hf)
      simp [facadeKey, this]
    rw [show (facadeDedupe l).map FoodItem.uniqueId = (facadeDedupe l).map facadeKey from
      (List.map_congr_left hk).symm]
    exact facadeDedupe_key_nodup l

/-- A concrete raw item used in witnesses and counterexamples. -/
def sampleFood : FoodItem :=
  { id := "1", img := "https://x/1.jpg", name := "Food One", dsc := "first dish",
    price := 10, rate := 4, country := "US", category := "", uniqueId := "" }

/-- A second concrete item (already stamped) for facade-level witnesses. -/
def sampleStampedA : FoodItem :=
  { id := "5", img := "https://x/a.jpg", name := "Alpha", dsc := "dish a",
    price := 11, rate := 5, country := "IT", category := "burgers", uniqueId := "5-burgers" }

/-- A third concrete item (already stamped), same raw `id`, other category. -/
def sampleStampedB : FoodItem :=
  { id := "5", img := "https://x/b.jpg", name := "Beta", dsc := "dish b",
    price := 12, rate := 3, country := "FR", category := "pizzas", uniqueId := "5-pizzas" }

/-- Witness for C1: the facade-dedup clause applied to a concrete two-item
list whose items both carry stamped `uniqueId`s. -/
theorem claim_C1_dedup_invariant_witness :
    ((facadeDedupe [sampleStampedA, sampleStampedB]).map FoodItem.uniqueId).Nodup :=
  claim_C1_dedup_invariant.2.2 [sampleStampedA, sampleStampedB] (by decide)

/-! ### Claim C2 -/

/-- Claim C2 counterexample: one category succeeds with an array of one item
while another category fulfils with a truthy non-array (malformed) body.
The claim says the aggregate is the union of the successes (here the one
stamped burger item), but the `TypeError` thrown by `.map` on the malformed
body escapes to the outer catch and the whole call resolves to `[]`. -/
theorem claim_C2_counterexample :
    getAllFoods [.arrayData [sampleFood], .malformedData, .rejected, .rejected, .rejected,
        .rejected, .rejected] = [] ∧
      stampedSuccesses (categories.zip
        [.arrayData [sampleFood], .malformedData, .rejected, .rejected, .rejected,
          .rejected, .rejected]) = [stampItem "burgers" sampleFood] := by
  constructor <;> rfl

theorem foldlM_processCategory_malformed (pairs : List (String × FetchOutcome)) :
    ∀ st : List FoodItem × List String,
      (∃ p ∈ pairs, p.2 = FetchOutcome.malformedData) →
      pairs.foldlM processCategory st = .error () := by
  induction pairs with
  | nil =>
      intro st h
      rcases h with ⟨p, hp, _⟩
      simp at hp
  | cons p ps ih =>
      intro st h
      rw [List.foldlM_cons]
      have hrest : p.2 ≠ FetchOutcome.malformedData →
          ∃ q ∈ ps, q.2 = FetchOutcome.malformedData := by
        intro hne
        rcases h with ⟨q, hq, hqm⟩
        rcases List.mem_cons.mp hq with rfl | hq'
        · exact absurd hqm hne
        · exact ⟨q, hq', hqm⟩
      cases hp2 : p.2 with
      | malformedData =>
          have hpc : processCategory st p = .error () := by simp [processCategory, hp2]
          rw [hpc]
          rfl
      | rejected =>
          have hpc : processCategory st p = .ok st := by simp [processCategory, hp2]
          rw [hpc]
          show List.foldlM processCategory st ps = _
          exact ih st (hrest (by rw [hp2]; intro hc; cases hc))
      | nullData =>
          have hpc : processCategory st p = .ok st := by simp [processCategory, hp2]
          rw [hpc]
          show List.foldlM processCategory st ps = _
          exact ih st (hrest (by rw [hp2]; intro hc; cases hc))
      | arrayData items =>
          have hpc : processCategory st p =
              .ok ((items.map (stampItem p.1)).foldl pushUnique st) := by
            simp [processCategory, hp2]
          rw [hpc]
          show List.foldlM processCategory
            ((items.map (stampItem p.1)).foldl pushUnique st) ps = _
          exact ih _ (hrest (by rw [hp2]; intro hc; cases hc))

theorem getAllFoods_malformed_aborts (outcomes : List FetchOutcome)
    (h : ∃ p ∈ categories.zip outcomes, p.2 = FetchOutcome.malformedData) :
    getAllFoods outcomes = [] := by
  unfold getAllFoods
  rw [foldlM_processCategory_malformed (categories.zip outcomes) ([], []) h]

/-- Claim C2 (amended): when no category fulfils with a malformed (truthy
non-array) body and the stamped items of the successful categories carry
distinct non-empty `uniqueId`s, `getAllFoods` resolves — it is a total
function, never throwing — to exactly the union of the successful
categories' stamped items, in category order then per-response item order;
when all requests are rejected it resolves to `[]`; and when any of the
seven zipped categories fulfils with a malformed body, the `TypeError`
escaping the combine loop makes the whole call resolve to `[]`, discarding
the other categories' successes. -/
theorem claim_C2_failure_tolerance :
    (∀ outcomes : List FetchOutcome,
      (∀ o ∈ outcomes, o ≠ FetchOutcome.malformedData) →
      (∀ f ∈ stampedSuccesses (categories.zip outcomes), f.uniqueId ≠ "") →
      ((stampedSuccesses (categories.zip outcomes)).map FoodItem.uniqueId).Nodup →
      getAllFoods outcomes = stampedSuccesses (categories.zip outcomes)) ∧
    (∀ outcomes : List FetchOutcome, (∀ o ∈ outcomes, o = FetchOutcome.rejected) →
      getAllFoods outcomes = []) ∧
    (∀ outcomes : List FetchOutcome,
      (∃ p ∈ categories.zip outcomes, p.2 = FetchOutcome.malformedData) →
      getAllFoods outcomes = []) :=
  ⟨getAllFoods_eq_stampedSuccesses, getAllFoods_all_rejected, getAllFoods_malformed_aborts⟩

/-- Witness for C2: all three clauses applied at concrete outcome lists. -/
theorem claim_C2_failure_tolerance_witness :
    getAllFoods [FetchOutcome.arrayData [sampleFood], FetchOutcome.rejected] =
      stampedSuccesses (categories.zip
        [FetchOutcome.arrayData [sampleFood], FetchOutcome.rejected]) ∧
    getAllFoods [FetchOutcome.rejected, FetchOutcome.rejected, FetchOutcome.rejected,
      FetchOutcome.rejected, FetchOutcome.rejected, FetchOutcome.rejected,
      FetchOutcome.rejected] = [] ∧
    getAllFoods [FetchOutcome.arrayData [sampleStampedA], FetchOutcome.malformedData] = [] :=
  ⟨claim_C2_failure_tolerance.1 [FetchOutcome.arrayData [sampleFood], FetchOutcome.rejected]
      (by decide) (by decide) (by decide),
    claim_C2_failure_tolerance.2.1 _ (by decide),
    claim_C2_failure_tolerance.2.2
      [FetchOutcome.arrayData [sampleStampedA], FetchOutcome.malformedData] (by decide)⟩

/-! ### Validator lemmas -/

theorem batchSize_pos (isMobile : Bool) : 0 < batchSize isMobile := by
  cases isMobile <;> decide

theorem validateLoop_filter (probe : FoodItem → Bool) (bs len : Nat) (hbs : 0 < bs) :
    ∀ (fuel i : Nat) (work : List FoodItem), work.length ≤ fuel →
      (validateLoop probe bs len fuel i work).1 = work.filter probe ∧
      (validateLoop probe bs len fuel i work).2.1 = work.filter (fun f => !probe f) := by
  intro fuel
  induction fuel with
  | zero =>
      intro i work hw
      have hw0 : work = [] := List.length_eq_zero.mp (Nat.le_zero.mp hw)
      subst hw0
      exact ⟨rfl, rfl⟩
  | succ fuel ih =>
      intro i work hw
      cases work with
      | nil => exact ⟨rfl, rfl⟩
      | cons x xs =>
          have hlen : ((x :: xs).drop bs).length ≤ fuel := by
            simp only [List.length_drop, List.length_cons] at *
            omega
          have h := ih (i + bs) ((x :: xs).drop bs) hlen
          constructor
          · show List.filter probe ((x :: xs).take bs) ++
              (validateLoop probe bs len fuel (i + bs) ((x :: xs).drop bs)).1 =
              List.filter probe (x :: xs)
            rw [h.1, ← List.filter_append, List.take_append_drop]
          · show List.filter (fun f => !probe f) ((x :: xs).take bs) ++
              (validateLoop probe bs len fuel (i + bs) ((x :: xs).drop bs)).2.1 =
              List.filter (fun f => !probe f) (x :: xs)
            rw [h.2, ← List.filter_append, List.take_append_drop]

theorem validateImages_eq (isMobile : Bool) (probe : FoodItem → Bool)
    (foods : List FoodItem) :
    (validateImages isMobile probe foods).1 =
      (foods.take (validateLimit isMobile foods.length)).filter probe ++
        (foods.take (validateLimit isMobile foods.length)).filter (fun f => !probe f) ++
        foods.drop (validateLimit isMobile foods.length) := by
  have h := validateLoop_filter probe (batchSize isMobile)
    (foods.take (validateLimit isMobile foods.length)).length (batchSize_pos isMobile)
    (foods.take (validateLimit isMobile foods.length)).length 0
    (foods.take (validateLimit isMobile foods.length)) le_rfl
  show (validateLoop probe (batchSize isMobile)
      (foods.take (validateLimit isMobile foods.length)).length
      (foods.take (validateLimit isMobile foods.length)).length 0
      (foods.take (validateLimit isMobile foods.length))).1 ++
      (validateLoop probe (batchSize isMobile)
        (foods.take (validateLimit isMobile foods.length)).length
        (foods.take (validateLimit isMobile foods.length)).length 0
        (foods.take (validateLimit isMobile foods.length))).2.1 ++
      foods.drop (validateLimit isMobile foods.length) = _
  rw [h.1, h.2]

theorem validateImages_perm (isMobile : Bool) (probe : FoodItem → Bool)
    (foods : List FoodItem) :
    ((validateImages isMobile probe foods).1).Perm foods := by
  rw [validateImages_eq]
  have h1 := List.filter_append_perm probe (foods.take (validateLimit isMobile foods.length))
  exact (h1.append_right (foods.drop (validateLimit isMobile foods.length))).trans
    (by rw [List.take_append_drop])

/-- Monotonicity of the per-batch progress formula in the probed count. -/
theorem progress_formula_mono (len : ℚ) (hlen : 0 ≤ len) {a b : ℚ} (h : a ≤ b) :
    min (a / len * 100) 100 ≤ min (b / len * 100) 100 := by
  apply min_le_min _ le_rfl
  apply mul_le_mul_of_nonneg_right _ (by norm_num)
  rw [div_eq_mul_inv, div_eq_mul_inv]
  exact mul_le_mul_of_nonneg_right h (inv_nonneg.2 hlen)

theorem validateLoop_progress_bounds (probe : FoodItem → Bool) (bs len : Nat) :
    ∀ (fuel i : Nat) (work : List FoodItem),
      ∀ q ∈ (validateLoop probe bs len fuel i work).2.2, 0 ≤ q ∧ q ≤ 100 := by
  intro fuel
  induction fuel with
  | zero =>
      intro i work q hq
      cases work <;> simp [validateLoop] at hq
  | succ fuel ih =>
      intro i work q hq
      cases work with
      | nil => simp [validateLoop] at hq
      | cons x xs =>
          have hq' : q = min (((i + bs : ℚ)) / len * 100) 100 ∨
              q ∈ (validateLoop probe bs len fuel (i + bs) ((x :: xs).drop bs)).2.2 := by
            simpa [validateLoop] using hq
          rcases hq' with rfl | hmem
          · refine ⟨le_min (by positivity) (by norm_num), min_le_right _ _⟩
          · exact ih (i + bs) ((x :: xs).drop bs) q hmem

theorem validateLoop_progress_head (probe : FoodItem → Bool) (bs len : Nat)
    (fuel i : Nat) (x : FoodItem) (xs : List FoodItem) :
    (validateLoop probe bs len (fuel + 1) i (x :: xs)).2.2.head? =
      some (min (((i + bs : ℚ)) / len * 100) 100) := by
  simp [validateLoop]

theorem validateLoop_progress_chain (probe : FoodItem → Bool) (bs len : Nat) :
    ∀ (fuel i : Nat) (work : List FoodItem),
      List.Chain' (· ≤ ·) (validateLoop probe bs len fuel i work).2.2 := by
  intro fuel
  induction fuel with
  | zero => intro i work; cases work <;> simp [validateLoop]
  | succ fuel ih =>
      intro i work
      cases work with
      | nil => simp [validateLoop]
      | cons x xs =>
          have hch : List.Chain' (· ≤ ·)
              (min (((i + bs : ℚ)) / len * 100) 100 ::
                (validateLoop probe bs len fuel (i + bs) ((x :: xs).drop bs)).2.2) := by
            refine List.chain'_cons'.mpr ⟨?_, ih (i + bs) ((x :: xs).drop bs)⟩
            intro q hq
            cases fuel with
            | zero =>
                cases hd : (x :: xs).drop bs <;> rw [hd] at hq <;> simp [validateLoop] at hq
            | succ fuel2 =>
                cases hd : (x :: xs).drop bs with
                | nil => rw [hd] at hq; simp [validateLoop] at hq
                | cons y ys =>
                    rw [hd, validateLoop_progress_head probe bs len fuel2 (i + bs) y ys] at hq
                    cases hq
                    apply progress_formula_mono (len : ℚ) (Nat.cast_nonneg len)
                    push_cast
                    linarith [Nat.cast_nonneg (α := ℚ) bs]
          simpa [validateLoop] using hch

theorem validateLoop_progress_get (probe : FoodItem → Bool) (bs len : Nat) :
    ∀ (fuel i : Nat) (work : List FoodItem),
      ∀ k, k < (validateLoop probe bs len fuel i work).2.2.length →
        (validateLoop probe bs len fuel i work).2.2.get? k =
          some (min ((((i + (k + 1) * bs : Nat) : ℚ)) / len * 100) 100) := by
  intro fuel
  induction fuel with
  | zero =>
      intro i work k hk
      cases work <;> simp [validateLoop] at hk
  | succ fuel ih =>
      intro i work k hk
      cases work with
      | nil => simp [validateLoop] at hk
      | cons x xs =>
          cases k with
          | zero =>
              have : (validateLoop probe bs len (fuel + 1) i (x :: xs)).2.2.get? 0 =
                  some (min (((i + bs : ℚ)) / len * 100) 100) := by
                simp [validateLoop]
              rw [this]
              have hnum : ((i + bs : ℚ)) = (((i + (0 + 1) * bs : Nat) : ℚ)) := by
                push_cast; ring
              rw [hnum]
          | succ k =>
              have hk' : k < (validateLoop probe bs len fuel (i + bs)
                  ((x :: xs).drop bs)).2.2.length := by
                have : (validateLoop probe bs len (fuel + 1) i (x :: xs)).2.2.length =
                    (validateLoop probe bs len fuel (i + bs) ((x :: xs).drop bs)).2.2.length
                      + 1 := by
                  simp [validateLoop]
                omega
              have hstep : (validateLoop probe bs len (fuel + 1) i (x :: xs)).2.2.get? (k + 1) =
                  (validateLoop probe bs len fuel (i + bs) ((x :: xs).drop bs)).2.2.get? k := by
                simp [validateLoop]
              rw [hstep, ih (i + bs) ((x :: xs).drop bs) k hk']
              have hnum : (((i + bs + (k + 1) * bs : Nat) : ℚ)) =
                  (((i + (k + 1 + 1) * bs : Nat) : ℚ)) := by
                push_cast; ring
              rw [hnum]

/-- The per-batch progress updates of one `validateImages` pass (the values
set between the initial `0` and the final `100`). -/
def progressUpdates (isMobile : Bool) (probe : FoodItem → Bool)
    (foods : List FoodItem) : List ℚ :=
  (validateLoop probe (batchSize isMobile)
    (foods.take (validateLimit isMobile foods.length)).length
    (foods.take (validateLimit isMobile foods.length)).length 0
    (foods.take (validateLimit isMobile foods.length))).2.2

/-! ### Claim C7 -/

/-- Claim C7: over one validation pass the sequence of `validationProgress`
values is `0`, the per-batch updates, then a final `100`; it is
non-decreasing, each batch update is `(items probed so far / window size)
× 100` capped at `100`, and the last value is exactly `100`. -/
theorem claim_C7_progress (isMobile : Bool) (probe : FoodItem → Bool)
    (foods : List FoodItem) :
    (validateImages isMobile probe foods).2 =
      0 :: progressUpdates isMobile probe foods ++ [100] ∧
    List.Chain' (· ≤ ·) ((validateImages isMobile probe foods).2) ∧
    ((validateImages isMobile probe foods).2).getLast? = some 100 ∧
    ∀ k, k < (progressUpdates isMobile probe foods).length →
      (progressUpdates isMobile probe foods).get? k =
        some (min (((((k + 1) * batchSize isMobile : Nat) : ℚ)) /
          ((foods.take (validateLimit isMobile foods.length)).length : ℚ) * 100) 100) := by
  have htrace : (validateImages isMobile probe foods).2 =
      0 :: progressUpdates isMobile probe foods ++ [100] := rfl
  refine ⟨htrace, ?_, ?_, ?_⟩
  · rw [htrace]
    show List.Chain' (· ≤ ·) ((0 :: progressUpdates isMobile probe foods) ++ [100])
    apply List.chain'_append.mpr
    refine ⟨?_, List.chain'_singleton 100, ?_⟩
    · refine List.chain'_cons'.mpr ⟨?_, validateLoop_progress_chain probe (batchSize isMobile)
        (foods.take (validateLimit isMobile foods.length)).length
        (foods.take (validateLimit isMobile foods.length)).length 0
        (foods.take (validateLimit isMobile foods.length))⟩
      intro q hq
      exact (validateLoop_progress_bounds probe (batchSize isMobile)
        (foods.take (validateLimit isMobile foods.length)).length
        (foods.take (validateLimit isMobile foods.length)).length 0
        (foods.take (validateLimit isMobile foods.length)) q
        (List.mem_of_mem_head? hq)).1
    · intro x hx y hy
      have hy0 : (100 : ℚ) = y := by simpa using hy
      subst hy0
      have hx' := List.mem_of_mem_getLast? hx
      rcases List.mem_cons.mp hx' with rfl | hx''
      · norm_num
      · exact (validateLoop_progress_bounds probe (batchSize isMobile)
          (foods.take (validateLimit isMobile foods.length)).length
          (foods.take (validateLimit isMobile foods.length)).length 0
          (foods.take (validateLimit isMobile foods.length)) x hx'').2
  · rw [htrace]
    show ((0 :: progressUpdates isMobile probe foods) ++ [100]).getLast? = some (100 : ℚ)
    rw [List.getLast?_concat]
  · intro k hk
    have h := validateLoop_progress_get probe (batchSize isMobile)
      (foods.take (validateLimit isMobile foods.length)).length
      (foods.take (validateLimit isMobile foods.length)).length 0
      (foods.take (validateLimit isMobile foods.length)) k hk
    have hnum : ((0 + (k + 1) * batchSize isMobile : Nat)) =
        ((k + 1) * batchSize isMobile : Nat) := by omega
    rw [show progressUpdates isMobile probe foods =
      (validateLoop probe (batchSize isMobile)
        (foods.take (validateLimit isMobile foods.length)).length
        (foods.take (validateLimit isMobile foods.length)).length 0
        (foods.take (validateLimit isMobile foods.length))).2.2 from rfl, h, hnum]

/-- A concrete deterministic probe outcome used by witnesses: only images
of items in category `"burgers"` load. -/
def sampleProbe : FoodItem → Bool := fun f => decide (f.category = "burgers")

/-- Witness for C7: the per-batch-update clause applied at a concrete
three-item mobile catalog (one batch). -/
theorem claim_C7_progress_witness :
    0 < (progressUpdates true sampleProbe [sampleFood, sampleStampedA, sampleStampedB]).length ∧
    (progressUpdates true sampleProbe [sampleFood, sampleStampedA, sampleStampedB]).get? 0 =
      some (min (((((0 + 1) * batchSize true : Nat) : ℚ)) /
        (([sampleFood, sampleStampedA, sampleStampedB].take
          (validateLimit true [sampleFood, sampleStampedA, sampleStampedB].length)).length : ℚ)
          * 100) 100) :=
  ⟨by decide,
    (claim_C7_progress true sampleProbe [sampleFood, sampleStampedA, sampleStampedB]).2.2.2
      0 (by decide)⟩

/-! ### Claim C3 -/

/-- Claim C3 counterexample: the claim extends the no-drop guarantee to the
best/featured-foods path, but `validateBestFoodsImages` filters invalid
items out: a one-item catalog whose probe fails validates to the empty
list, so `|output| ≠ |input|` there. -/
theorem claim_C3_counterexample :
    (validateBestFoodsImages (fun _ => false) [sampleFood]).length ≠
      ([sampleFood] : List FoodItem).length := by decide

/-- Claim C3 (amended): the main catalog validation pass never drops items —
its output is a permutation of its input, in particular of the same
length — but the best-foods path keeps exactly the probe-valid items,
dropping the rest. -/
theorem claim_C3_no_data_loss (isMobile : Bool) (probe : FoodItem → Bool)
    (foods bestFoods : List FoodItem) :
    ((validateImages isMobile probe foods).1).Perm foods ∧
    (validateImages isMobile probe foods).1.length = foods.length ∧
    validateBestFoodsImages probe bestFoods = bestFoods.filter probe :=
  ⟨validateImages_perm isMobile probe foods,
    (validateImages_perm isMobile probe foods).length_eq, rfl⟩

/-! ### Claim C6 -/

/-- Claim C6: the main validator examines only the window prefix — `min(n, 80)`
items on desktop, `min(n, 30)` on mobile, probed in batches of 50 resp.
10 — and its output is exactly: the window's valid-probed items (original
order), then the window's invalid-probed items (original order), then the
unexamined beyond-window items in original order. -/
theorem claim_C6_window_order (isMobile : Bool) (probe : FoodItem → Bool)
    (foods : List FoodItem) :
    (validateImages isMobile probe foods).1 =
      (foods.take (validateLimit isMobile foods.length)).filter probe ++
        (foods.take (validateLimit isMobile foods.length)).filter (fun f => !probe f) ++
        foods.drop (validateLimit isMobile foods.length) ∧
    validateLimit isMobile foods.length = min foods.length (if isMobile then 30 else 80) ∧
    batchSize isMobile = if isMobile then 10 else 50 :=
  ⟨validateImages_eq isMobile probe foods, rfl, rfl⟩

/-! ### Claim C8 -/

/-- Claim C8 counterexample: a fetched catalog of 2 items with exactly 1
probe-valid item in the window.  The claim says the facade reports
`validCount = 1`; the code computes `validCount = validatedFoods.length`,
which after the (nothing-dropped) reordering pass is `2`. -/
theorem claim_C8_counterexample :
    (facadeView ((validateImages false sampleProbe [sampleStampedA, sampleStampedB]).1)
        (some [sampleStampedA, sampleStampedB])).validCount = 2 ∧
    (([sampleStampedA, sampleStampedB].take
        (validateLimit false [sampleStampedA, sampleStampedB].length)).filter
        sampleProbe).length = 1 := by
  constructor <;> decide

/-- Claim C8 (amended): after a completed main-catalog pass over a fetched
catalog of `n` items, the facade reports `validCount = n` (the length of
the full retained `validatedFoods` list, regardless of how many probes
succeeded) and `totalCount = n`. -/
theorem claim_C8_counts (isMobile : Bool) (probe : FoodItem → Bool)
    (foods : List FoodItem) :
    (facadeView ((validateImages isMobile probe foods).1) (some foods)).validCount =
      foods.length ∧
    (facadeView ((validateImages isMobile probe foods).1) (some foods)).totalCount =
      foods.length := by
  constructor
  · show ((validateImages isMobile probe foods).1).length = foods.length
    exact (validateImages_perm isMobile probe foods).length_eq
  · rfl

/-! ### Claim C4 -/

/-- Claim C4 (code bug, evaluated at the failing input): a pass that starts
from the only state in which the effect triggers validation
(`validatedFoods = []`, per the `validatedFoods.length === 0` guard) over
a one-item fetched catalog produces the reordered output `[sampleFood]`,
yet the record written to the cache is `{ foods: [], timestamp: now }` —
the stale closure value of `validatedFoods`, not the validator's output.
The timestamp clause of the claim holds; the contents clause does not. -/
theorem claim_C4_cache_write_bug :
    (runMainValidationPass false (fun _ => true) [] [sampleFood] 1000).validatedFoods =
      [sampleFood] ∧
    (runMainValidationPass false (fun _ => true) [] [sampleFood] 1000).cacheWritten.foods =
      [] ∧
    (runMainValidationPass false (fun _ => true) [] [sampleFood] 1000).cacheWritten.timestamp =
      1000 := by
  refine ⟨?_, rfl, rfl⟩
  decide

/-! ### Claim C5 -/

/-- Claim C5: a record written at time `T` is served (its `foods` returned)
by any read at `now` with `now − T ≤ 24h`, and treated as absent — the
initializer returns `[]` and removes the record from the store — at any
`now` with `now − T > 24h`. -/
theorem claim_C5_ttl_boundary (r : ValidationCacheRecord) (now : Int) :
    (now - r.timestamp ≤ validationTTL →
      (readValidationCache (some r) now).1 = r.foods ∧
        (readValidationCache (some r) now).2 = some r) ∧
    (now - r.timestamp > validationTTL →
      readValidationCache (some r) now = ([], none)) := by
  have hread : readValidationCache (some r) now =
      (if ¬(now - r.timestamp > validationTTL) ∧ r.foods ≠ [] then (r.foods, some r)
       else if now - r.timestamp > validationTTL then ([], none) else ([], some r)) := rfl
  constructor
  · intro h
    rcases hf : r.foods with _ | ⟨x, xs⟩
    · rw [hread, if_neg (by simp [hf]), if_neg (by simp [not_lt.mpr h])]
      exact ⟨rfl, rfl⟩
    · rw [hread, if_pos ⟨by simpa using h, by simp [hf]⟩]
      exact ⟨hf, rfl⟩
  · intro h
    rw [hread, if_neg (by simp [h]), if_pos (by simpa using h)]

/-- Witness for C5: a record written at `T = 1000` read 1 ms before and
1 ms after the 24-hour boundary. -/
theorem claim_C5_ttl_boundary_witness :
    (readValidationCache (some { foods := [sampleFood], timestamp := 1000 })
        (1000 + validationTTL - 1)).1 = [sampleFood] ∧
    readValidationCache (some { foods := [sampleFood], timestamp := 1000 })
        (1000 + validationTTL + 1) = ([], none) :=
  ⟨((claim_C5_ttl_boundary { foods := [sampleFood], timestamp := 1000 }
        (1000 + validationTTL - 1)).1 (by decide)).1,
    (claim_C5_ttl_boundary { foods := [sampleFood], timestamp := 1000 }
        (1000 + validationTTL + 1)).2 (by decide)⟩

/-! ### Claim C9 -/

/-- Claim C9: the probe `checkImageUrl` is a total function of the image's fate — the
promise always resolves, never rejects, never hangs — and it resolves
`true` exactly when the url is non-empty and the image's load event fires
within the configured timeout; on a load error, on timeout expiry (no
event within `timeoutMs`), or on an empty url it resolves `false`. -/
theorem claim_C9_probe (timeoutMs : Nat) (url : String) (ev : ImageEvent) :
    checkImageUrl timeoutMs url ev = true ↔
      url ≠ "" ∧ ∃ t, ev = ImageEvent.loadAt t ∧ t < timeoutMs := by
  unfold checkImageUrl
  split
  · next h => simp [h]
  · next h =>
      cases ev with
      | loadAt t =>
          simp only [decide_eq_true_eq, ne_eq, h, not_false_iff, true_and]
          constructor
          · intro ht; exact ⟨t, rfl, ht⟩
          · rintro ⟨t', ht', hlt⟩; cases ht'; exact hlt
      | errorAt t => simp [h]
      | never => simp [h]

/-! ### Claim C10 -/

/-- Claim C10: `searchFoods` returns `[]` — not the input list — whenever the
query is empty or the foods list is absent; for a non-empty query it
returns exactly the items whose lowercased name or description contains
the lowercased, trimmed query as a substring. -/
theorem claim_C10_search (query : String) (foods : Option (List FoodItem))
    (l : List FoodItem) (f : FoodItem) :
    searchFoods "" foods = [] ∧
    searchFoods query none = [] ∧
    (query ≠ "" →
      (f ∈ searchFoods query (some l) ↔
        f ∈ l ∧ (substringOf (trimChars (lowerChars query)) (lowerChars f.name) = true ∨
          substringOf (trimChars (lowerChars query)) (lowerChars f.dsc) = true))) := by
  refine ⟨by simp [searchFoods], by simp [searchFoods], ?_⟩
  intro hq
  unfold searchFoods
  rw [if_neg (by simp [hq])]
  simp [List.mem_filter, matchesSearch, Bool.or_eq_true]

/-- A concrete item matched by a padded, mixed-case query. -/
def searchSample : FoodItem :=
  { id := "9", img := "https://x/9.jpg", name := "Margherita Pizza", dsc := "classic pie",
    price := 8, rate := 5, country := "IT", category := "pizzas", uniqueId := "9-pizzas" }

/-- Witness for C10: the non-empty-query clause applied at a concrete
query and list. -/
theorem claim_C10_search_witness :
    searchSample ∈ searchFoods " PIZ " (some [searchSample, sampleFood]) :=
  ((claim_C10_search " PIZ " none [searchSample, sampleFood] searchSample).2.2
      (by decide)).mpr ⟨by decide, Or.inl (by decide)⟩
